import Mathlib

/-!
Verification development for the pbiextractor repository
(`src/pbit_extractor.py`, `src/pbi_model_extractor.py`).

The development shallowly embeds the schema-extraction core of
`PBIXParser._parse_data_model_schema` (pbit_extractor.py) and the
DAX dependency analyzer / model validator of
`PowerBIAnalyzer.analyze_dax_dependencies` / `validate_model`
(pbi_model_extractor.py), and proves properties of those embeddings.

Modelling conventions, fixed once here:
* JSON scalar values are modelled by `PBI.JVal`; numbers are modelled as
  integers and JSON objects are omitted, since no formula-bearing field of
  the schema carries an object and no property below depends on one.
* Python dicts keyed by strings are modelled as association lists built by
  `PBI.dictInsert` / `PBI.dictAppend` (first-match overwrite / append, which
  agrees with Python dict semantics because every dict in the source is
  built from empty with unique live keys); Python sets of strings are
  modelled as duplicate-free lists built by `PBI.setInsert` (set iteration
  order in Python is unspecified; every downstream use in the source sorts
  or tests membership, so the representation order is irrelevant).
* Entity names (`table['name']`, `col['name']`, `measure['name']`,
  `rel['fromTable']`, ...) are modelled as strings.  The source reads most
  of them with `.get`, so a missing name becomes `None` there, but a `None`
  name makes the source itself raise (`re.escape(None)` in the analyzer,
  `KeyError` on `table['name']` in the normalizer's counters), so documents
  with nameless entities are outside the domain of this embedding.
* `re` pattern matching with `re.IGNORECASE` is embedded directly as
  decidable search functions over `List Char`: `\b` is the word-boundary
  test between the previous character and the character at the match
  position, `\s*` is an arbitrary run of whitespace characters, and
  `re.escape(name)` makes `name` a literal, matched case-insensitively.
  ASCII case folding is used (the repository's identifiers are ASCII).
-/

namespace PBI

/-- JSON-like values as decoded by `json.load` in the source: null, booleans,
numbers (modelled as integers), strings and arrays. -/
inductive JVal where
  | jnull
  | jbool (b : Bool)
  | jint (n : Int)
  | jstr (s : String)
  | jarr (xs : List JVal)

mutual

/-- Decidable equality of `JVal` (the automatic derivation does not handle
the nested list). -/
def JVal.decEq : (a b : JVal) → Decidable (a = b)
  | .jnull, .jnull => isTrue rfl
  | .jbool a, .jbool b =>
    if h : a = b then isTrue (by rw [h]) else isFalse (by intro hh; cases hh; exact h rfl)
  | .jint a, .jint b =>
    if h : a = b then isTrue (by rw [h]) else isFalse (by intro hh; cases hh; exact h rfl)
  | .jstr a, .jstr b =>
    if h : a = b then isTrue (by rw [h]) else isFalse (by intro hh; cases hh; exact h rfl)
  | .jarr xs, .jarr ys =>
    match JVal.decEqList xs ys with
    | isTrue h => isTrue (by rw [h])
    | isFalse h => isFalse (by intro hh; cases hh; exact h rfl)
  | .jnull, .jbool _ => isFalse nofun
  | .jnull, .jint _ => isFalse nofun
  | .jnull, .jstr _ => isFalse nofun
  | .jnull, .jarr _ => isFalse nofun
  | .jbool _, .jnull => isFalse nofun
  | .jbool _, .jint _ => isFalse nofun
  | .jbool _, .jstr _ => isFalse nofun
  | .jbool _, .jarr _ => isFalse nofun
  | .jint _, .jnull => isFalse nofun
  | .jint _, .jbool _ => isFalse nofun
  | .jint _, .jstr _ => isFalse nofun
  | .jint _, .jarr _ => isFalse nofun
  | .jstr _, .jnull => isFalse nofun
  | .jstr _, .jbool _ => isFalse nofun
  | .jstr _, .jint _ => isFalse nofun
  | .jstr _, .jarr _ => isFalse nofun
  | .jarr _, .jnull => isFalse nofun
  | .jarr _, .jbool _ => isFalse nofun
  | .jarr _, .jint _ => isFalse nofun
  | .jarr _, .jstr _ => isFalse nofun

def JVal.decEqList : (xs ys : List JVal) → Decidable (xs = ys)
  | [], [] => isTrue rfl
  | [], _ :: _ => isFalse nofun
  | _ :: _, [] => isFalse nofun
  | x :: xs, y :: ys =>
    match JVal.decEq x y, JVal.decEqList xs ys with
    | isTrue h1, isTrue h2 => isTrue (by rw [h1, h2])
    | isFalse h1, _ => isFalse (by intro hh; cases hh; exact h1 rfl)
    | _, isFalse h2 => isFalse (by intro hh; cases hh; exact h2 rfl)

end

instance : DecidableEq JVal := JVal.decEq

/-- The apostrophe character (used by the quoted-table-name regexes). -/
def sqChar : Char := Char.ofNat 39

/-- Python `repr()` of a decoded JSON value (the form `str` uses for the
elements of a list).  String escaping inside `repr` of a string is not
modelled; no property below depends on it. -/
def pyRepr : JVal → String
  | .jnull => "None"
  | .jbool true => "True"
  | .jbool false => "False"
  | .jint n => toString n
  | .jstr s => String.mk (sqChar :: s.data) ++ String.mk [sqChar]
  | .jarr xs => "[" ++ String.intercalate ", " (xs.attach.map (fun x => pyRepr x.1)) ++ "]"
decreasing_by
  simp_wf
  have := List.sizeOf_lt_of_mem x.2
  omega

/-- Python `str()` of a decoded JSON value. -/
def pyStr : JVal → String
  | .jnull => "None"
  | .jbool true => "True"
  | .jbool false => "False"
  | .jint n => toString n
  | .jstr s => s
  | .jarr xs => pyRepr (.jarr xs)

/-- Python truthiness of a decoded JSON value (`if expr:`). -/
def truthy : JVal → Bool
  | .jnull => false
  | .jbool b => b
  | .jint n => n != 0
  | .jstr s => !s.isEmpty
  | .jarr xs => !xs.isEmpty

/-- Python truthiness of an optional field value: an absent key (or a key
read with `.get` and no default) is falsy. -/
def otruthy : Option JVal → Bool
  | none => false
  | some v => truthy v

/-- Embeds `_safe_get_expression` (identical in pbit_extractor.py lines 18-31 and
pbi_model_extractor.py lines 31-44).  The argument is the result of
`obj.get(key, '')`: `none` stands for an absent key, whose default `''` is a
string and therefore returned unchanged as `""`; a present key yields its
raw JSON value.  Lists are joined with newlines over `str` of each item,
strings are returned unchanged, `None` becomes `""`, and anything else is
converted with `str`. -/
def safe_get_expression : Option JVal → String
  | none => ""
  | some (.jarr xs) => String.intercalate "\n" (xs.map pyStr)
  | some (.jstr s) => s
  | some .jnull => ""
  | some (.jbool b) => pyStr (.jbool b)
  | some (.jint n) => pyStr (.jint n)

/-! ### Embedding of the `re` patterns used by `analyze_dax_dependencies`

The analyzer (pbi_model_extractor.py lines 696-714) searches the DAX text
with `re.search(..., re.IGNORECASE)` for three pattern shapes:

* table reference: `rf'\b{re.escape(table)}\s*\['` or
  `rf"'{re.escape(table)}'\s*\["`,
* column reference: `rf'\b{re.escape(table)}\s*\[\s*{re.escape(col)}\s*\]'`
  or `rf"'{re.escape(table)}'\s*\[\s*{re.escape(col)}\s*\]"`,
* measure reference: `rf'\[\s*{re.escape(other_measure)}\s*\]'`.

`re.search` succeeds iff some position of the haystack admits a match, and
with backtracking a `\s*` run can be any length, so each search is embedded
as an existential scan over match positions and whitespace-run lengths. -/

/-- Python's `\w` (ASCII range): letters, digits, underscore. -/
def isWordChar (c : Char) : Bool := c.isAlphanum || c == '_'

/-- Python's `\s` (ASCII range): space, tab, newline, carriage return,
form feed, vertical tab. -/
def isSpaceChar (c : Char) : Bool :=
  c == ' ' || c == '\t' || c == '\n' || c == '\r' || c == '\x0b' || c == '\x0c'

/-- Case-insensitive character comparison, as `re.IGNORECASE` applies it to
the escaped literal names (ASCII folding). -/
def ciEq (a b : Char) : Bool := a.toLower == b.toLower

/-- Strip a literal pattern (matched case-insensitively) from the front of
the text; `some rest` is the unconsumed remainder. -/
def ciStripPrefix : List Char → List Char → Option (List Char)
  | [], t => some t
  | _ :: _, [] => none
  | p :: ps, c :: cs => if ciEq p c then ciStripPrefix ps cs else none

/-- Matches `\s*` followed by a continuation: succeeds iff the continuation accepts
the text after consuming some (possibly empty) run of whitespace. -/
def tryWsThen (k : List Char → Bool) : List Char → Bool
  | [] => k []
  | c :: cs => k (c :: cs) || (isSpaceChar c && tryWsThen k cs)

/-- The head of the text is the given character. -/
def headIs (c : Char) : List Char → Bool
  | [] => false
  | x :: _ => x == c

/-- Word-boundary test `\b` at a match position: the previous character
(`none` at the start of the haystack, counted as a non-word position) and
the character at the position lie on different sides of the word/non-word
divide. -/
def isWordO : Option Char → Bool
  | none => false
  | some c => isWordChar c

/-- Search for `\b NAME …` : at some position of the text there is a word
boundary, the literal `name` matches case-insensitively, and `after`
accepts the remainder. `prev` is the character before the current
position. -/
def bareNameSearch (name : List Char) (after : List Char → Bool) :
    Option Char → List Char → Bool
  | _, [] => false
  | prev, c :: cs =>
    ((isWordO prev != isWordChar c) &&
      (match ciStripPrefix name (c :: cs) with
       | some rest => after rest
       | none => false)) ||
    bareNameSearch name after (some c) cs

/-- Search for `' NAME ' …` : at some position the text carries an
apostrophe, the literal `name` (case-insensitively), a closing apostrophe,
and a remainder accepted by `after`. -/
def quotedNameSearch (name : List Char) (after : List Char → Bool) :
    List Char → Bool
  | [] => false
  | c :: cs =>
    (c == sqChar &&
      (match ciStripPrefix name cs with
       | some (q :: rest) => q == sqChar && after rest
       | _ => false)) ||
    quotedNameSearch name after cs

/-- The tail of a table pattern: `\s*\[`. -/
def tableTail : List Char → Bool := tryWsThen (headIs '[')

/-- The tail of a column pattern after the table name:
`\s*\[\s*{col}\s*\]`. -/
def colTail (col : List Char) : List Char → Bool :=
  tryWsThen (fun r =>
    match r with
    | b :: rest =>
      b == '[' && tryWsThen (fun r2 =>
        match ciStripPrefix col r2 with
        | some r3 => tryWsThen (headIs ']') r3
        | none => false) rest
    | [] => false)

/-- Embeds `re.search(rf'\b{table}\s*\[', dax, IGNORECASE) or
re.search(rf"'{table}'\s*\[", dax, IGNORECASE)` — the table-reference test
of pbi_model_extractor.py lines 698-700. -/
def tableRefSearch (table dax : String) : Bool :=
  bareNameSearch table.data tableTail none dax.data ||
  quotedNameSearch table.data tableTail dax.data

/-- Embeds `re.search(col_pattern1, dax, IGNORECASE) or re.search(col_pattern2,
dax, IGNORECASE)` — the column-reference test of lines 704-706. -/
def colRefSearch (table col dax : String) : Bool :=
  bareNameSearch table.data (colTail col.data) none dax.data ||
  quotedNameSearch table.data (colTail col.data) dax.data

/-- A match of `\[\s*{name}\s*\]` starting exactly at the head of the
text. -/
def bracketNameAt (name : List Char) : List Char → Bool
  | [] => false
  | b :: rest =>
    b == '[' && tryWsThen (fun r2 =>
      match ciStripPrefix name r2 with
      | some r3 => tryWsThen (headIs ']') r3
      | none => false) rest

/-- Embeds `re.search(rf'\[\s*{name}\s*\]', dax, IGNORECASE)` — the
measure-reference test of lines 712-713. -/
def bracketNameSearchAux (name : List Char) : List Char → Bool
  | [] => false
  | c :: cs => bracketNameAt name (c :: cs) || bracketNameSearchAux name cs

/-- Measure-reference search over strings. -/
def measureRefSearch (name dax : String) : Bool :=
  bracketNameSearchAux name.data dax.data

/-! ### Python dicts and sets of strings -/

/-- Python set update `s.add(x)`, on a set modelled as a duplicate-free list. -/
def setInsert (x : String) (s : List String) : List String :=
  if x ∈ s then s else s ++ [x]

/-- Python dict assignment `d[k] = v`, on a dict modelled as an association list: overwrite
the entry if the key is present, append otherwise. -/
def dictInsert {α : Type} (k : String) (v : α) :
    List (String × α) → List (String × α)
  | [] => [(k, v)]
  | p :: rest => if p.1 = k then (k, v) :: rest else p :: dictInsert k v rest

/-- First entry of the association list with the given key (Python string
`==` is propositional equality here). -/
def dictFind? {α : Type} (k : String) : List (String × α) → Option (String × α)
  | [] => none
  | p :: rest => if p.1 = k then some p else dictFind? k rest

/-- Python dict access `d.get(k, dflt)`. -/
def dictGetD {α : Type} (d : List (String × α)) (k : String) (dflt : α) : α :=
  match dictFind? k d with
  | some p => p.2
  | none => dflt

/-- Python dict lookup `d[k]`, returning `none` when the key is absent. -/
def dictLookup {α : Type} (d : List (String × α)) (k : String) : Option α :=
  (dictFind? k d).map Prod.snd

/-- Python `defaultdict(list)` update `d[k].append(v)`, creating the entry when the key
is new. -/
def dictAppend (k v : String) :
    List (String × List String) → List (String × List String)
  | [] => [(k, [v])]
  | p :: rest => if p.1 = k then (p.1, p.2 ++ [v]) :: rest else p :: dictAppend k v rest

/-! ### Sorting (`sorted(...)`) -/

/-- Insertion into a sorted list of strings. -/
def insortStr (x : String) : List String → List String
  | [] => [x]
  | y :: ys => if x ≤ y then x :: y :: ys else y :: insortStr x ys

/-- Python `sorted(s)`: ascending sort of (the list representation of) a set of
strings.  Only membership in the result is used by the properties below. -/
def sortStrings : List String → List String
  | [] => []
  | x :: xs => insortStr x (sortStrings xs)

/-! ### Raw schema documents

The input of `PBIXParser._parse_data_model_schema` (pbit_extractor.py lines
184-381): the JSON decoding of the `DataModelSchema` file.  Fields read
with `.get` and no default are `Option`-typed (`none` = key absent or
null); list-valued fields use `[]` for an absent key, which is exactly the
`.get(key, [])` default the source applies.  Formula-bearing fields
(`expression`, `filterExpression`) keep their raw polymorphic `JVal` shape.
The `annotations` and `lineageTag` fields, and the `cultures` /
`perspectives` sections, are copied verbatim by the source and feed neither
the summary counters nor the analyzer nor the validator; they are omitted
here. -/

structure RawColumn where
  name : String
  dataType : Option String
  isHidden : Option Bool
  isKey : Option Bool
  isNullable : Option Bool
  sourceColumn : Option String
  formatString : Option String
  dataCategory : Option String
  summarizeBy : Option String
  displayFolder : Option String
  description : Option String
  expression : Option JVal
  sortByColumn : Option String
deriving DecidableEq

structure RawMeasure where
  name : String
  expression : Option JVal
  formatString : Option String
  isHidden : Option Bool
  displayFolder : Option String
  description : Option String
deriving DecidableEq

structure RawLevel where
  name : Option String
  column : Option String
  ordinal : Option Int
deriving DecidableEq

structure RawHierarchy where
  name : Option String
  isHidden : Option Bool
  levels : List RawLevel
deriving DecidableEq

/-- A partition's `source` object; only its `type` is inspected by the
source (the check `part_info['source'].get('type') == 'calculated'`). -/
structure RawSource where
  type : Option String
deriving DecidableEq

structure RawPartition where
  name : Option String
  mode : Option String
  source : Option RawSource
deriving DecidableEq

structure RawTable where
  name : String
  description : Option String
  isHidden : Option Bool
  isPrivate : Option Bool
  columns : List RawColumn
  measures : List RawMeasure
  hierarchies : List RawHierarchy
  partitions : List RawPartition
deriving DecidableEq

structure RawRelationship where
  name : Option String
  fromTable : String
  fromColumn : String
  toTable : String
  toColumn : String
  fromCardinality : Option String
  toCardinality : Option String
  crossFilteringBehavior : Option String
  securityFilteringBehavior : Option String
  isActive : Option Bool
  relyOnReferentialIntegrity : Option Bool
deriving DecidableEq

structure RawTablePermission where
  name : String
  filterExpression : Option JVal
deriving DecidableEq

structure RawRole where
  name : String
  description : Option String
  modelPermission : Option String
  tablePermissions : List RawTablePermission
deriving DecidableEq

structure RawModel where
  name : Option String
  description : Option String
  culture : Option String
  defaultMode : Option String
  tables : List RawTable
  relationships : List RawRelationship
  roles : List RawRole
deriving DecidableEq

/-- The whole decoded schema document.  `model = none` models a document
whose top level lacks the `"model"` key. -/
structure RawSchema where
  model : Option RawModel
deriving DecidableEq

/-- The fallback of `schema.get('model', {})`: an empty object to whose `.get`
calls all yield their defaults. -/
def emptyRawModel : RawModel :=
  { name := none, description := none, culture := none, defaultMode := none,
    tables := [], relationships := [], roles := [] }

/-! ### The canonical (parsed) model -/

structure ColumnInfo where
  name : String
  dataType : Option String
  isHidden : Bool
  isKey : Bool
  isNullable : Bool
  sourceColumn : Option String
  formatString : Option String
  dataCategory : Option String
  summarizeBy : String
  displayFolder : String
  description : String
  expression : Option JVal
  sortByColumn : Option String
deriving DecidableEq

structure MeasureInfo where
  name : String
  expression : Option JVal
  formatString : Option String
  isHidden : Bool
  displayFolder : String
  description : String
deriving DecidableEq

structure LevelInfo where
  name : Option String
  column : Option String
  ordinal : Option Int
deriving DecidableEq

structure HierarchyInfo where
  name : Option String
  isHidden : Bool
  levels : List LevelInfo
deriving DecidableEq

structure PartitionInfo where
  name : Option String
  mode : Option String
  source : RawSource
deriving DecidableEq

structure TableInfo where
  name : String
  description : String
  isHidden : Bool
  isPrivate : Bool
  columns : List ColumnInfo
  measures : List MeasureInfo
  hierarchies : List HierarchyInfo
  partitions : List PartitionInfo
deriving DecidableEq

structure RelationshipInfo where
  name : Option String
  fromTable : String
  fromColumn : String
  toTable : String
  toColumn : String
  fromCardinality : Option String
  toCardinality : Option String
  crossFilteringBehavior : Option String
  securityFilteringBehavior : Option String
  isActive : Bool
  relyOnReferentialIntegrity : Bool
deriving DecidableEq

structure TablePermissionInfo where
  name : String
  filterExpression : Option JVal
deriving DecidableEq

structure RoleInfo where
  name : String
  description : String
  modelPermission : Option String
  tablePermissions : List TablePermissionInfo
deriving DecidableEq

/-- One entry of the summary's `allMeasures` list (pbit_extractor.py lines
268-273); its `expression` is `measure.get('expression', '')`, i.e. the raw
value with the empty string substituted for an absent key. -/
structure AllMeasureEntry where
  table : String
  measure : String
  expression : JVal
  displayFolder : String
deriving DecidableEq

/-- The summary block stored under `dataModel['summary']` (lines
359-369). -/
structure Summary where
  totalTables : Nat
  totalMeasures : Nat
  totalRelationships : Nat
  totalRoles : Nat
  totalCalculatedColumns : Nat
  totalCalculatedTables : Nat
  allMeasures : List AllMeasureEntry
  calculatedColumns : List String
  calculatedTables : List String
deriving DecidableEq

/-- The canonical model stored under `results['dataModel']`. -/
structure DataModel where
  name : Option String
  description : Option String
  culture : Option String
  defaultMode : Option String
  tables : List TableInfo
  relationships : List RelationshipInfo
  roles : List RoleInfo
  summary : Summary
deriving DecidableEq

/-! ### The schema normalizer (`_parse_data_model_schema`) -/

/-- Column entry, pbit_extractor.py lines 232-248.  Note that the stored
`expression` is the raw `col.get('expression')`, not a normalized string. -/
def parseColumn (c : RawColumn) : ColumnInfo :=
  { name := c.name
    dataType := c.dataType
    isHidden := c.isHidden.getD false
    isKey := c.isKey.getD false
    isNullable := c.isNullable.getD true
    sourceColumn := c.sourceColumn
    formatString := c.formatString
    dataCategory := c.dataCategory
    summarizeBy := c.summarizeBy.getD "default"
    displayFolder := c.displayFolder.getD ""
    description := c.description.getD ""
    expression := c.expression
    sortByColumn := c.sortByColumn }

/-- Measure entry, lines 256-267.  The stored `expression` is the raw
`measure.get('expression')`. -/
def parseMeasure (mr : RawMeasure) : MeasureInfo :=
  { name := mr.name
    expression := mr.expression
    formatString := mr.formatString
    isHidden := mr.isHidden.getD false
    displayFolder := mr.displayFolder.getD ""
    description := mr.description.getD "" }

/-- One `all_measures` entry, lines 268-273. -/
def mkAllMeasureEntry (tname : String) (mr : RawMeasure) : AllMeasureEntry :=
  { table := tname
    measure := mr.name
    expression := mr.expression.getD (.jstr "")
    displayFolder := mr.displayFolder.getD "" }

def parseLevel (lv : RawLevel) : LevelInfo :=
  { name := lv.name, column := lv.column, ordinal := lv.ordinal }

def parseHierarchy (h : RawHierarchy) : HierarchyInfo :=
  { name := h.name, isHidden := h.isHidden.getD false,
    levels := h.levels.map parseLevel }

/-- Partition entry, lines 291-303: `partition.get('source', {})`. -/
def parsePartition (p : RawPartition) : PartitionInfo :=
  { name := p.name, mode := p.mode, source := p.source.getD { type := none } }

/-- The calculated-table test of line 300, applied to the stored source
object. -/
def partitionCalculated (p : RawPartition) : Bool :=
  (p.source.getD { type := none }).type == some "calculated"

/-- The `all_calculated_columns` contributions of one table (lines 250-251):
one qualified name per column whose raw expression is truthy. -/
def tableCalcColumnNames (t : RawTable) : List String :=
  (t.columns.filter (fun c => otruthy c.expression)).map
    (fun c => t.name ++ "[" ++ c.name ++ "]")

/-- The `all_calculated_tables` contributions of one table (lines 291-303):
the table name appended once per partition whose source type is
`"calculated"`. -/
def tableCalcTableNames (t : RawTable) : List String :=
  (t.partitions.filter partitionCalculated).map (fun _ => t.name)

def parseTable (t : RawTable) : TableInfo :=
  { name := t.name
    description := t.description.getD ""
    isHidden := t.isHidden.getD false
    isPrivate := t.isPrivate.getD false
    columns := t.columns.map parseColumn
    measures := t.measures.map parseMeasure
    hierarchies := t.hierarchies.map parseHierarchy
    partitions := t.partitions.map parsePartition }

def parseRelationship (r : RawRelationship) : RelationshipInfo :=
  { name := r.name
    fromTable := r.fromTable
    fromColumn := r.fromColumn
    toTable := r.toTable
    toColumn := r.toColumn
    fromCardinality := r.fromCardinality
    toCardinality := r.toCardinality
    crossFilteringBehavior := r.crossFilteringBehavior
    securityFilteringBehavior := r.securityFilteringBehavior
    isActive := r.isActive.getD true
    relyOnReferentialIntegrity := r.relyOnReferentialIntegrity.getD false }

def parseTablePermission (p : RawTablePermission) : TablePermissionInfo :=
  { name := p.name, filterExpression := p.filterExpression }

def parseRole (r : RawRole) : RoleInfo :=
  { name := r.name
    description := r.description.getD ""
    modelPermission := r.modelPermission
    tablePermissions := r.tablePermissions.map parseTablePermission }

/-- Runs `_parse_data_model_schema` on a decoded schema document (lines
194-369).  `schema.get('model', {})` never fails: a document without the
`"model"` key is normalized against the empty model object. -/
def parseDataModelSchema (s : RawSchema) : DataModel :=
  let model := s.model.getD emptyRawModel
  let tables := model.tables.map parseTable
  let allMeasures := model.tables.flatMap (fun t => t.measures.map (mkAllMeasureEntry t.name))
  let allCalcColumns := model.tables.flatMap tableCalcColumnNames
  let allCalcTables := model.tables.flatMap tableCalcTableNames
  let rels := model.relationships.map parseRelationship
  let roles := model.roles.map parseRole
  { name := model.name
    description := model.description
    culture := model.culture
    defaultMode := model.defaultMode
    tables := tables
    relationships := rels
    roles := roles
    summary :=
      { totalTables := tables.length
        totalMeasures := allMeasures.length
        totalRelationships := rels.length
        totalRoles := roles.length
        totalCalculatedColumns := allCalcColumns.length
        totalCalculatedTables := allCalcTables.length
        allMeasures := allMeasures
        calculatedColumns := allCalcColumns
        calculatedTables := allCalcTables } }

/-- The file-level behaviour of `_parse_data_model_schema` (lines 188-192):
when the `DataModelSchema` file is absent from the container the method
returns without setting `results['dataModel']` (modelled as `none`);
otherwise the decoded document is normalized. -/
def parseSchemaFile : Option RawSchema → Option DataModel :=
  Option.map parseDataModelSchema

/-- The gate in `PowerBIAnalyzer.run_all` (pbi_model_extractor.py lines
73-75): the data dictionary, analyzer and validator run iff the loaded
data carries a `dataModel` key. -/
def runAllProceeds (d : Option DataModel) : Bool := d.isSome

/-! ### The dependency analyzer (`analyze_dax_dependencies`)

pbi_model_extractor.py lines 655-779, operating on the `dataModel`
produced above (round-tripped through JSON, which is the identity on this
representation — Python `None` and JSON `null` both map to `none`). -/

/-- The value stored in the analyzer's `all_measures` dict (lines
676-680): table name, the expression normalized by
`_safe_get_expression`, and the display folder. -/
structure MeasureEntry where
  table : String
  expression : String
  displayFolder : String
deriving DecidableEq

def mkMeasureEntry (tname : String) (meas : MeasureInfo) : MeasureEntry :=
  { table := tname
    expression := safe_get_expression meas.expression
    displayFolder := meas.displayFolder }

/-- The `all_tables` set (lines 665-671). -/
def all_tables (m : DataModel) : List String :=
  m.tables.foldl (fun s t => setInsert t.name s) []

/-- The `all_columns` dict (line 672): table name to list of column
names. -/
def all_columns (m : DataModel) : List (String × List String) :=
  m.tables.foldl (fun d t => dictInsert t.name (t.columns.map (fun c => c.name)) d) []

/-- The `all_measures` dict (lines 674-681): measure name to entry, later
entries overwriting earlier ones with the same name. -/
def all_measures (m : DataModel) : List (String × MeasureEntry) :=
  m.tables.foldl
    (fun d t => t.measures.foldl
      (fun d meas => dictInsert meas.name (mkMeasureEntry t.name meas) d) d) []

/-- The flattened (table, measure) traversal order underlying
`all_measures`, used to state which entry survives for a duplicated
name. -/
def flatMeasures (m : DataModel) : List (String × MeasureEntry) :=
  m.tables.flatMap (fun t => t.measures.map (fun meas => (meas.name, mkMeasureEntry t.name meas)))

/-- One measure's forward-dependency record (lines 690-722). -/
structure DepRecord where
  table : String
  displayFolder : String
  tables : List String
  columns : List String
  measures : List String
deriving DecidableEq

/-- The table/column scan of lines 697-707: walk `all_tables`; when the
table-reference search succeeds, add the table to `tables_used` and test
each of its columns, adding qualified hits to `columns_used`. -/
def scanTables (allT : List String) (allC : List (String × List String))
    (dax : String) : List String × List String :=
  allT.foldl
    (fun acc t =>
      if tableRefSearch t dax then
        (setInsert t acc.1,
         (dictGetD allC t []).foldl
           (fun cu c =>
             if colRefSearch t c dax then setInsert (t ++ "[" ++ c ++ "]") cu else cu)
           acc.2)
      else acc)
    ([], [])

/-- The measure scan of lines 710-714: every other key of `all_measures`
whose bracketed name occurs in the text. -/
def scanMeasures (names : List String) (selfName dax : String) : List String :=
  names.foldl
    (fun acc o =>
      if o ≠ selfName && measureRefSearch o dax then setInsert o acc else acc)
    []

/-- The record stored in `dependencies[measure_name]` (lines 716-722):
the three reference sets, sorted. -/
def measureDeps (m : DataModel) (name : String) (info : MeasureEntry) : DepRecord :=
  { table := info.table
    displayFolder := info.displayFolder
    tables := sortStrings (scanTables (all_tables m) (all_columns m) info.expression).1
    columns := sortStrings (scanTables (all_tables m) (all_columns m) info.expression).2
    measures := sortStrings (scanMeasures ((all_measures m).map Prod.fst) name info.expression) }

/-- The completed forward map `dependencies` (lines 686-722), in
`all_measures` iteration order. -/
def dependencies (m : DataModel) : List (String × DepRecord) :=
  (all_measures m).map (fun p => (p.1, measureDeps m p.1 p.2))

/-- The reverse index (lines 749-753): one pass over the completed forward
map, appending each measure to the used-by list of every measure it
references. -/
def reverse_deps (deps : List (String × DepRecord)) : List (String × List String) :=
  deps.foldl
    (fun rd p => p.2.measures.foldl (fun rd u => dictAppend u p.1 rd) rd) []

/-! ### The model validator (`validate_model`)

pbi_model_extractor.py lines 781-896.  The source accumulates formatted
warning strings; each string shape is injectively represented by a
constructor carrying the data interpolated into it, so that counting
occurrences of a given warning shape is exact. -/

inductive Finding where
  /-- "Table '{name}' has no relationships (orphaned table)" -/
  | orphanedTable (name : String)
  /-- "Table '{name}' has no columns or measures" (critical issue) -/
  | noColumnsOrMeasures (name : String)
  /-- "Table '{name}' has {n} calculated columns (consider measures for
  better performance)" -/
  | calcOverload (name : String) (n : Nat)
  /-- "Measure '{table}[{measure}]' has no format string" -/
  | missingFormat (table measure : String)
  /-- "Hidden table '{name}' has {n} visible columns" -/
  | hiddenVisible (name : String) (n : Nat)
  /-- "{n} inactive relationship(s) found" -/
  | inactiveRels (n : Nat)
  /-- "{n} bidirectional relationship(s) found ..." -/
  | bidirRels (n : Nat)
  /-- "{n} many-to-many relationship(s) found ..." -/
  | manyToManyRels (n : Nat)
deriving DecidableEq

/-- The `tables_with_rels` set (lines 793-796). -/
def tables_with_rels (m : DataModel) : List String :=
  m.relationships.foldl (fun s r => setInsert r.toTable (setInsert r.fromTable s)) []

/-- The test `not measure.get('formatString')`: Python falsiness of an optional
string (absent, null, or empty). -/
def optStrFalsy : Option String → Bool
  | none => true
  | some s => s.isEmpty

/-- The calculated columns of a table as the validator computes them (line
810): raw-expression truthiness. -/
def calcCols (t : TableInfo) : List ColumnInfo :=
  t.columns.filter (fun c => otruthy c.expression)

/-- The critical issues contributed by one table (lines 806-807). -/
def tableIssues (t : TableInfo) : List Finding :=
  if t.columns.isEmpty && t.measures.isEmpty then [.noColumnsOrMeasures t.name] else []

/-- The warnings contributed by one table, in emission order (lines
798-823): orphan check, calculated-column overload, per-measure missing
format, hidden table with visible columns. -/
def tableWarnings (rels : List String) (t : TableInfo) : List Finding :=
  (if !rels.contains t.name && !t.isHidden then [.orphanedTable t.name] else []) ++
  (if (calcCols t).length > 5 then [.calcOverload t.name (calcCols t).length] else []) ++
  ((t.measures.filter (fun meas => optStrFalsy meas.formatString && !meas.isHidden)).map
    (fun meas => .missingFormat t.name meas.name)) ++
  (if t.isHidden && !(t.columns.filter (fun c => !c.isHidden)).isEmpty then
    [.hiddenVisible t.name (t.columns.filter (fun c => !c.isHidden)).length]
  else [])

/-- The `inactive_rels` list (line 826). -/
def inactiveRelList (m : DataModel) : List RelationshipInfo :=
  m.relationships.filter (fun r => !r.isActive)

/-- The `bidir_rels` list (lines 830-831). -/
def bidirRelList (m : DataModel) : List RelationshipInfo :=
  m.relationships.filter (fun r => r.crossFilteringBehavior == some "bothDirections")

/-- The `many_to_many` list (lines 835-836). -/
def m2mRelList (m : DataModel) : List RelationshipInfo :=
  m.relationships.filter
    (fun r => r.fromCardinality == some "many" && r.toCardinality == some "many")

/-- The relationship-level warnings (lines 826-838). -/
def relWarnings (m : DataModel) : List Finding :=
  (if !(inactiveRelList m).isEmpty then [.inactiveRels (inactiveRelList m).length] else []) ++
  (if !(bidirRelList m).isEmpty then [.bidirRels (bidirRelList m).length] else []) ++
  (if !(m2mRelList m).isEmpty then [.manyToManyRels (m2mRelList m).length] else [])

/-- Embeds `validate_model`: the (critical issues, warnings) pair. -/
def validate_model (m : DataModel) : List Finding × List Finding :=
  (m.tables.flatMap tableIssues,
   m.tables.flatMap (tableWarnings (tables_with_rels m)) ++ relWarnings m)

/-- Recognizer for a calculated-column-overload warning about a given
table name. -/
def isCalcOverloadFor (name : String) : Finding → Bool
  | .calcOverload n _ => n == name
  | _ => false

/-! ### Concrete example data

The end-to-end scenario of the specification: tables `Sales` (column
`Amount`) and `Date` (column `Year`); measures `TotalSales` and
`YoYGrowth` on `Sales`. -/

def exColumn (n : String) : ColumnInfo :=
  { name := n, dataType := none, isHidden := false, isKey := false, isNullable := true,
    sourceColumn := none, formatString := none, dataCategory := none,
    summarizeBy := "default", displayFolder := "", description := "",
    expression := none, sortByColumn := none }

/-- A calculated column (string-valued raw expression). -/
def calcColumn (n : String) : ColumnInfo :=
  { exColumn n with expression := some (.jstr "1 + 1") }

def exMeasure (n expr : String) : MeasureInfo :=
  { name := n, expression := some (.jstr expr), formatString := none, isHidden := false,
    displayFolder := "", description := "" }

def exTable (n : String) (cols : List ColumnInfo) (meas : List MeasureInfo) : TableInfo :=
  { name := n, description := "", isHidden := false, isPrivate := false,
    columns := cols, measures := meas, hierarchies := [], partitions := [] }

def emptySummary : Summary :=
  { totalTables := 0, totalMeasures := 0, totalRelationships := 0, totalRoles := 0,
    totalCalculatedColumns := 0, totalCalculatedTables := 0,
    allMeasures := [], calculatedColumns := [], calculatedTables := [] }

def exModel (tables : List TableInfo) : DataModel :=
  { name := none, description := none, culture := none, defaultMode := none,
    tables := tables, relationships := [], roles := [], summary := emptySummary }

def totalSalesMeasure : MeasureInfo := exMeasure "TotalSales" "SUM(Sales[Amount])"

def yoyMeasure : MeasureInfo := exMeasure "YoYGrowth" "DIVIDE([TotalSales], [TotalSales])"

def demoModel : DataModel :=
  exModel [exTable "Sales" [exColumn "Amount"] [totalSalesMeasure, yoyMeasure],
           exTable "Date" [exColumn "Year"] []]

/-- The quoted form of a table reference, `'Sales'[Revenue]`. -/
def quotedSalesRevenue : String :=
  String.mk (sqChar :: "Sales".data ++ sqChar :: "[Revenue]".data)

/-- Two tables each carrying a measure named `M`, with different
expressions. -/
def c10Model : DataModel :=
  exModel [exTable "T1" [] [exMeasure "M" "1 + 1"],
           exTable "T2" [] [exMeasure "M" "2 + 2"]]

/-- The measure whose raw expression is a list of DAX fragments. -/
def fragmentsExpr : JVal := .jarr [.jstr "VAR x = 1", .jstr "RETURN x"]

def c1RawMeasure : RawMeasure :=
  { name := "M", expression := some fragmentsExpr,
    formatString := none, isHidden := none, displayFolder := none,
    description := none }

def c1RawTable : RawTable :=
  { name := "T", description := none, isHidden := none, isPrivate := none,
    columns := [], measures := [c1RawMeasure], hierarchies := [], partitions := [] }

def c1Raw : RawSchema :=
  { model := some { emptyRawModel with tables := [c1RawTable] } }

/-- A schema document whose top level lacks the `"model"` key. -/
def c6Doc : RawSchema := { model := none }

/-- Raw value shapes on which truthiness and normalized non-emptiness
agree: absent, null, or a string. -/
def isTextualShape : Option JVal → Bool
  | none => true
  | some .jnull => true
  | some (.jstr _) => true
  | _ => false

/-- A raw column with the given name and raw expression and every other
field absent. -/
def rawColumn (n : String) (e : Option JVal) : RawColumn :=
  { name := n, dataType := none, isHidden := none, isKey := none,
    isNullable := none, sourceColumn := none, formatString := none,
    dataCategory := none, summarizeBy := none, displayFolder := none,
    description := none, expression := e, sortByColumn := none }

def c7RawTable : RawTable :=
  { name := "T", description := none, isHidden := none, isPrivate := none,
    columns := [rawColumn "C" (some (.jarr [.jstr ""]))],
    measures := [], hierarchies := [], partitions := [] }

def c7Raw : RawSchema :=
  { model := some { emptyRawModel with tables := [c7RawTable] } }

/-- A partition whose source type is `"calculated"`. -/
def calcRawPartition (n : String) : RawPartition :=
  { name := some n, mode := none, source := some { type := some "calculated" } }

def c8RawTable : RawTable :=
  { name := "T", description := none, isHidden := none, isPrivate := none,
    columns := [], measures := [], hierarchies := [],
    partitions := [calcRawPartition "P1", calcRawPartition "P2"] }

def c8Raw : RawSchema :=
  { model := some { emptyRawModel with tables := [c8RawTable] } }

def c8SingleRaw : RawSchema :=
  { model := some { emptyRawModel with tables :=
      [{ c8RawTable with partitions := [calcRawPartition "P1"] }] } }

def c9FiveModel : DataModel :=
  exModel [exTable "F" [calcColumn "c1", calcColumn "c2", calcColumn "c3",
    calcColumn "c4", calcColumn "c5"] []]

def c9SixModel : DataModel :=
  exModel [exTable "S" [calcColumn "c1", calcColumn "c2", calcColumn "c3",
    calcColumn "c4", calcColumn "c5", calcColumn "c6"] []]

/-! ## Theorems -/

@[simp] theorem pyStr_jstr (s : String) : pyStr (.jstr s) = s := rfl

@[simp] theorem mem_setInsert {a x : String} {s : List String} :
    a ∈ setInsert x s ↔ a = x ∨ a ∈ s := by
  unfold setInsert
  split
  · rename_i hx
    constructor
    · exact Or.inr
    · rintro (rfl | h)
      · exact hx
      · exact h
  · simp [or_comm]

theorem dictFind?_dictInsert {α : Type} (k : String) (v : α) (d : List (String × α)) (k' : String) :
    dictFind? k' (dictInsert k v d) =
      if k = k' then some (k, v) else dictFind? k' d := by
  induction d with
  | nil => simp [dictInsert, dictFind?]
  | cons p rest ih =>
    by_cases hpk : p.1 = k
    · by_cases hk : k = k'
      · subst hk; simp [dictInsert, dictFind?, hpk]
      · simp [dictInsert, dictFind?, hpk, hk]
    · by_cases hp : p.1 = k'
      · have hkk : ¬ k = k' := fun h => hpk (hp.trans h.symm)
        have hkk2 : ¬ k' = k := fun h => hkk h.symm
        simp [dictInsert, dictFind?, hpk, hp, hkk, hkk2]
      · simp [dictInsert, dictFind?, hpk, hp, ih]

theorem dictLookup_dictInsert {α : Type} (k : String) (v : α) (d : List (String × α)) (k' : String) :
    dictLookup (dictInsert k v d) k' =
      if k = k' then some v else dictLookup d k' := by
  simp only [dictLookup, dictFind?_dictInsert]
  split <;> rfl

theorem mem_of_mem_dictInsert {α : Type} {q : String × α} {k : String} {v : α}
    {d : List (String × α)} (h : q ∈ dictInsert k v d) : q = (k, v) ∨ q ∈ d := by
  induction d with
  | nil => simpa [dictInsert] using h
  | cons p rest ih =>
    simp only [dictInsert] at h
    split at h
    · rcases List.mem_cons.mp h with h | h
      · exact Or.inl h
      · exact Or.inr (List.mem_cons_of_mem _ h)
    · rcases List.mem_cons.mp h with h | h
      · exact Or.inr (h ▸ List.mem_cons_self _ _)
      · rcases ih h with h | h
        · exact Or.inl h
        · exact Or.inr (List.mem_cons_of_mem _ h)

theorem keys_dictInsert {α : Type} (k : String) (v : α) (d : List (String × α)) :
    (dictInsert k v d).map Prod.fst =
      if k ∈ d.map Prod.fst then d.map Prod.fst else d.map Prod.fst ++ [k] := by
  induction d with
  | nil => simp [dictInsert]
  | cons p rest ih =>
    simp only [dictInsert]
    by_cases hpk : p.1 = k
    · simp [hpk]
    · have : ¬ k = p.1 := fun h => hpk h.symm
      simp only [if_neg hpk, List.map_cons, List.mem_cons, this, false_or, ih]
      split <;> simp

theorem keysNodup_dictInsert {α : Type} (k : String) (v : α) {d : List (String × α)}
    (h : (d.map Prod.fst).Nodup) : ((dictInsert k v d).map Prod.fst).Nodup := by
  rw [keys_dictInsert]
  split
  · exact h
  · rename_i hk
    exact List.Nodup.append h (List.nodup_singleton k)
      ((List.disjoint_singleton).mpr hk)

theorem mem_keys_dictInsert {α : Type} {a k : String} {v : α} {d : List (String × α)} :
    a ∈ (dictInsert k v d).map Prod.fst ↔ a = k ∨ a ∈ d.map Prod.fst := by
  rw [keys_dictInsert]
  split
  · rename_i hk
    constructor
    · exact Or.inr
    · rintro (rfl | h)
      · exact hk
      · exact h
  · simp [or_comm]

/-- Reads `dictGetD` through `dictAppend`. -/
theorem dictGetD_dictAppend (k v : String) (d : List (String × List String)) (k' : String) :
    dictGetD (dictAppend k v d) k' [] =
      if k = k' then dictGetD d k [] ++ [v] else dictGetD d k' [] := by
  induction d with
  | nil =>
    by_cases hk : k = k' <;> simp [dictAppend, dictGetD, dictFind?, hk]
  | cons p rest ih =>
    by_cases hpk : p.1 = k
    · by_cases hk : k = k'
      · subst hk; simp [dictAppend, dictGetD, dictFind?, hpk]
      · simp [dictAppend, dictGetD, dictFind?, hpk, hk]
    · by_cases hp : p.1 = k'
      · have hkk : ¬ k = k' := fun h => hpk (hp.trans h.symm)
        have hkk2 : ¬ k' = k := fun h => hkk h.symm
        simp [dictAppend, dictGetD, dictFind?, hpk, hp, hkk, hkk2]
      · by_cases hk : k = k'
        · subst hk
          simpa [dictAppend, dictGetD, dictFind?, hpk, hp] using ih
        · simpa [dictAppend, dictGetD, dictFind?, hpk, hp, hk] using ih

@[simp] theorem mem_insortStr {a x : String} {l : List String} :
    a ∈ insortStr x l ↔ a = x ∨ a ∈ l := by
  induction l with
  | nil => simp [insortStr]
  | cons y ys ih =>
    simp only [insortStr]
    split
    · simp
    · simp only [List.mem_cons, ih]
      tauto

@[simp] theorem mem_sortStrings {a : String} {l : List String} :
    a ∈ sortStrings l ↔ a ∈ l := by
  induction l with
  | nil => simp [sortStrings]
  | cons x xs ih => simp [sortStrings, ih]

/-! ### Supporting lemmas about the analyzer structures -/

theorem mem_foldl_setInsert (f : TableInfo → String) (l : List TableInfo)
    (acc : List String) (x : String) :
    x ∈ l.foldl (fun s t => setInsert (f t) s) acc ↔ x ∈ acc ∨ x ∈ l.map f := by
  induction l generalizing acc with
  | nil => simp
  | cons t rest ih =>
    simp only [List.foldl_cons, ih, mem_setInsert, List.map_cons, List.mem_cons]
    tauto

theorem mem_all_tables {m : DataModel} {x : String} :
    x ∈ all_tables m ↔ x ∈ m.tables.map (fun t => t.name) := by
  simpa using mem_foldl_setInsert (fun t => t.name) m.tables [] x

theorem mem_scanTables_fst (allT : List String) (allC : List (String × List String))
    (dax : String) (x : String) :
    x ∈ (scanTables allT allC dax).1 ↔ x ∈ allT ∧ tableRefSearch x dax := by
  suffices h : ∀ (l : List String) (acc : List String × List String),
      x ∈ (l.foldl
        (fun acc t =>
          if tableRefSearch t dax then
            (setInsert t acc.1,
             (dictGetD allC t []).foldl
               (fun cu c =>
                 if colRefSearch t c dax then setInsert (t ++ "[" ++ c ++ "]") cu else cu)
               acc.2)
          else acc)
        acc).1 ↔ x ∈ acc.1 ∨ (x ∈ l ∧ tableRefSearch x dax) by
    simpa [scanTables] using h allT ([], [])
  intro l
  induction l with
  | nil => simp
  | cons t rest ih =>
    intro acc
    simp only [List.foldl_cons]
    by_cases ht : tableRefSearch t dax
    · rw [if_pos ht, ih]
      simp only [mem_setInsert, List.mem_cons]
      constructor
      · rintro ((rfl | h) | h)
        · exact Or.inr ⟨Or.inl rfl, ht⟩
        · exact Or.inl h
        · exact Or.inr ⟨Or.inr h.1, h.2⟩
      · rintro (h | ⟨rfl | h, hs⟩)
        · exact Or.inl (Or.inr h)
        · exact Or.inl (Or.inl rfl)
        · exact Or.inr ⟨h, hs⟩
    · rw [if_neg ht, ih]
      simp only [List.mem_cons]
      constructor
      · rintro (h | h)
        · exact Or.inl h
        · exact Or.inr ⟨Or.inr h.1, h.2⟩
      · rintro (h | ⟨rfl | h, hs⟩)
        · exact Or.inl h
        · exact absurd hs ht
        · exact Or.inr ⟨h, hs⟩

theorem mem_scanMeasures (names : List String) (selfName dax : String) (o : String) :
    o ∈ scanMeasures names selfName dax ↔
      o ∈ names ∧ o ≠ selfName ∧ measureRefSearch o dax := by
  suffices h : ∀ (l : List String) (acc : List String),
      o ∈ l.foldl
        (fun acc u =>
          if u ≠ selfName && measureRefSearch u dax then setInsert u acc else acc)
        acc ↔ o ∈ acc ∨ (o ∈ l ∧ o ≠ selfName ∧ measureRefSearch o dax) by
    simpa [scanMeasures] using h names []
  intro l
  induction l with
  | nil => simp
  | cons u rest ih =>
    intro acc
    simp only [List.foldl_cons]
    by_cases hu : (u ≠ selfName && measureRefSearch u dax) = true
    · rw [if_pos hu, ih]
      simp only [Bool.and_eq_true, decide_eq_true_eq, ne_eq] at hu
      simp only [mem_setInsert, List.mem_cons]
      constructor
      · rintro ((rfl | h) | h)
        · exact Or.inr ⟨Or.inl rfl, hu.1, hu.2⟩
        · exact Or.inl h
        · exact Or.inr ⟨Or.inr h.1, h.2⟩
      · rintro (h | ⟨rfl | h, hs⟩)
        · exact Or.inl (Or.inr h)
        · exact Or.inl (Or.inl rfl)
        · exact Or.inr ⟨h, hs⟩
    · rw [if_neg hu, ih]
      simp only [Bool.and_eq_true, decide_eq_true_eq, ne_eq, not_and] at hu
      simp only [List.mem_cons]
      constructor
      · rintro (h | h)
        · exact Or.inl h
        · exact Or.inr ⟨Or.inr h.1, h.2⟩
      · rintro (h | ⟨rfl | h, hne, hs⟩)
        · exact Or.inl h
        · exact absurd hs (hu hne)
        · exact Or.inr ⟨h, hne, hs⟩

theorem dictFind?_append {α : Type} (k : String) (a b : List (String × α)) :
    dictFind? k (a ++ b) = (dictFind? k a).or (dictFind? k b) := by
  induction a with
  | nil => simp [dictFind?]
  | cons p rest ih =>
    by_cases hp : p.1 = k
    · simp [dictFind?, hp]
    · simp [dictFind?, hp, ih]

theorem dictFind?_eq_some {α : Type} {k : String} {d : List (String × α)}
    {p : String × α} (h : dictFind? k d = some p) : p ∈ d ∧ p.1 = k := by
  induction d with
  | nil => simp [dictFind?] at h
  | cons q rest ih =>
    by_cases hq : q.1 = k
    · rw [dictFind?, if_pos hq] at h
      cases h
      exact ⟨List.mem_cons_self _ _, hq⟩
    · rw [dictFind?, if_neg hq] at h
      exact ⟨List.mem_cons_of_mem _ (ih h).1, (ih h).2⟩

theorem dictFind?_of_mem_nodup {α : Type} {k : String} {v : α} {d : List (String × α)}
    (hmem : (k, v) ∈ d) (hnodup : (d.map Prod.fst).Nodup) :
    dictFind? k d = some (k, v) := by
  induction d with
  | nil => simp at hmem
  | cons q rest ih =>
    simp only [List.map_cons, List.nodup_cons] at hnodup
    rcases List.mem_cons.mp hmem with h | h
    · rw [dictFind?, if_pos (by rw [← h])]
      exact congrArg some h.symm
    · have hq : ¬ q.1 = k := by
        intro hk
        exact hnodup.1 (hk ▸ (List.mem_map.mpr ⟨(k, v), h, rfl⟩))
      rw [dictFind?, if_neg hq]
      exact ih h hnodup.2

theorem isSome_dictFind? {α : Type} (k : String) (d : List (String × α)) :
    (dictFind? k d).isSome = d.any (fun p => p.1 == k) := by
  induction d with
  | nil => simp [dictFind?]
  | cons q rest ih =>
    by_cases hq : q.1 = k
    · simp [dictFind?, hq]
    · simp [dictFind?, hq, ih]

/-- The result of folding `dictInsert` over a pair list: lookup finds the
last inserted pair for the key, falling back to the initial dict. -/
theorem dictFind?_foldl_dictInsert {α : Type} (l : List (String × α))
    (d0 : List (String × α)) (k : String) :
    dictFind? k (l.foldl (fun d p => dictInsert p.1 p.2 d) d0) =
      (dictFind? k l.reverse).or (dictFind? k d0) := by
  induction l generalizing d0 with
  | nil => simp [dictFind?]
  | cons p rest ih =>
    simp only [List.foldl_cons, List.reverse_cons, ih, dictFind?_append,
      dictFind?_dictInsert]
    cases hr : dictFind? k rest.reverse with
    | some q => simp [Option.or]
    | none =>
      by_cases hp : p.1 = k
      · subst hp
        simp [Option.or, dictFind?]
      · simp [Option.or, dictFind?, hp]

theorem keysNodup_foldl_dictInsert {α : Type} (l : List (String × α))
    (d0 : List (String × α)) (h : (d0.map Prod.fst).Nodup) :
    (((l.foldl (fun d p => dictInsert p.1 p.2 d) d0)).map Prod.fst).Nodup := by
  induction l generalizing d0 with
  | nil => exact h
  | cons p rest ih => exact ih _ (keysNodup_dictInsert _ _ h)

theorem mem_of_mem_foldl_dictInsert {α : Type} {q : String × α}
    {l : List (String × α)} {d0 : List (String × α)}
    (h : q ∈ l.foldl (fun d p => dictInsert p.1 p.2 d) d0) : q ∈ d0 ∨ q ∈ l := by
  induction l generalizing d0 with
  | nil => exact Or.inl h
  | cons p rest ih =>
    rcases ih h with h' | h'
    · rcases mem_of_mem_dictInsert h' with h'' | h''
      · exact Or.inr (h'' ▸ List.mem_cons_self _ _)
      · exact Or.inl h''
    · exact Or.inr (List.mem_cons_of_mem _ h')

theorem mem_keys_foldl_dictInsert {α : Type} (l : List (String × α))
    (d0 : List (String × α)) (k : String) :
    k ∈ ((l.foldl (fun d p => dictInsert p.1 p.2 d) d0)).map Prod.fst ↔
      k ∈ d0.map Prod.fst ∨ k ∈ l.map Prod.fst := by
  induction l generalizing d0 with
  | nil => simp
  | cons p rest ih =>
    simp only [List.foldl_cons, ih, mem_keys_dictInsert, List.map_cons, List.mem_cons]
    tauto

/-- Rewrites `all_measures` as the `dictInsert` fold over the flattened
table-then-measure traversal. -/
theorem all_measures_eq_flat (m : DataModel) :
    all_measures m = (flatMeasures m).foldl (fun d p => dictInsert p.1 p.2 d) [] := by
  suffices h : ∀ (ts : List TableInfo) (d0 : List (String × MeasureEntry)),
      ts.foldl
        (fun d t => t.measures.foldl
          (fun d meas => dictInsert meas.name (mkMeasureEntry t.name meas) d) d) d0 =
      (ts.flatMap (fun t => t.measures.map
        (fun meas => (meas.name, mkMeasureEntry t.name meas)))).foldl
        (fun d p => dictInsert p.1 p.2 d) d0 by
    simpa [all_measures, flatMeasures] using h m.tables []
  intro ts
  induction ts with
  | nil => simp
  | cons t rest ih =>
    intro d0
    simp only [List.foldl_cons, List.flatMap_cons, List.foldl_append, ih,
      List.foldl_map]

theorem all_measures_keysNodup (m : DataModel) :
    ((all_measures m).map Prod.fst).Nodup := by
  rw [all_measures_eq_flat]
  exact keysNodup_foldl_dictInsert _ _ (by simp)

theorem mem_all_measures_keys {m : DataModel} {k : String} :
    k ∈ (all_measures m).map Prod.fst ↔ k ∈ (flatMeasures m).map Prod.fst := by
  rw [all_measures_eq_flat]
  simpa using mem_keys_foldl_dictInsert (flatMeasures m) [] k

/-- Every entry of `all_measures` originates from some measure of some
table, with the analyzer-normalized expression. -/
theorem mem_all_measures {m : DataModel} {name : String} {info : MeasureEntry}
    (h : (name, info) ∈ all_measures m) :
    ∃ t ∈ m.tables, ∃ meas ∈ t.measures,
      meas.name = name ∧ info = mkMeasureEntry t.name meas := by
  rw [all_measures_eq_flat] at h
  rcases mem_of_mem_foldl_dictInsert h with h | h
  · simp at h
  · simp only [flatMeasures, List.mem_flatMap, List.mem_map] at h
    obtain ⟨t, ht, meas, hmeas, heq⟩ := h
    obtain ⟨h1, h2⟩ := Prod.mk.injEq _ _ _ _ ▸ heq
    exact ⟨t, ht, meas, hmeas, h1, h2.symm⟩

theorem dictFind?_all_measures (m : DataModel) (k : String) :
    dictFind? k (all_measures m) = dictFind? k (flatMeasures m).reverse := by
  rw [all_measures_eq_flat, dictFind?_foldl_dictInsert]
  cases h : dictFind? k (flatMeasures m).reverse <;> simp [Option.or, dictFind?]

theorem mem_foldl_dictAppend (ms : List String) (name : String)
    (rd : List (String × List String)) (a b : String) :
    a ∈ dictGetD (ms.foldl (fun rd u => dictAppend u name rd) rd) b [] ↔
      a ∈ dictGetD rd b [] ∨ (a = name ∧ b ∈ ms) := by
  induction ms generalizing rd with
  | nil => simp
  | cons u rest ih =>
    simp only [List.foldl_cons, ih, dictGetD_dictAppend, List.mem_cons]
    by_cases hub : u = b
    · subst hub
      rw [if_pos rfl]
      simp only [List.mem_append, List.mem_singleton]
      tauto
    · simp only [if_neg hub]
      constructor
      · rintro (h | h)
        · exact Or.inl h
        · exact Or.inr ⟨h.1, Or.inr h.2⟩
      · rintro (h | ⟨ha, rfl | hb⟩)
        · exact Or.inl h
        · exact absurd rfl hub
        · exact Or.inr ⟨ha, hb⟩

/-- Membership in the reverse index: `a` is recorded as using `b` iff the
completed forward map holds a record for `a` whose measure set contains
`b`. -/
theorem mem_reverse_deps (deps : List (String × DepRecord)) (a b : String) :
    a ∈ dictGetD (reverse_deps deps) b [] ↔
      ∃ rec, (a, rec) ∈ deps ∧ b ∈ rec.measures := by
  suffices h : ∀ (l : List (String × DepRecord)) (rd : List (String × List String)),
      a ∈ dictGetD
        (l.foldl (fun rd p => p.2.measures.foldl (fun rd u => dictAppend u p.1 rd) rd) rd)
        b [] ↔
      a ∈ dictGetD rd b [] ∨ ∃ rec, (a, rec) ∈ l ∧ b ∈ rec.measures by
    simpa [reverse_deps, dictGetD, dictFind?] using h deps []
  intro l
  induction l with
  | nil => simp
  | cons p rest ih =>
    intro rd
    simp only [List.foldl_cons, ih, mem_foldl_dictAppend, List.mem_cons]
    constructor
    · rintro ((h | h) | h)
      · exact Or.inl h
      · exact Or.inr ⟨p.2, Or.inl (by rw [h.1]), h.2⟩
      · obtain ⟨rec, hrec, hb⟩ := h
        exact Or.inr ⟨rec, Or.inr hrec, hb⟩
    · rintro (h | ⟨rec, hrec | hrec, hb⟩)
      · exact Or.inl (Or.inl h)
      · have ha : a = p.1 := congrArg Prod.fst hrec
        have hr : rec = p.2 := congrArg Prod.snd hrec
        exact Or.inl (Or.inr ⟨ha, hr ▸ hb⟩)
      · exact Or.inr ⟨rec, hrec, hb⟩

theorem dependencies_keys (m : DataModel) :
    (dependencies m).map Prod.fst = (all_measures m).map Prod.fst := by
  simp [dependencies, List.map_map, Function.comp]

theorem dependencies_keysNodup (m : DataModel) :
    ((dependencies m).map Prod.fst).Nodup := by
  rw [dependencies_keys]
  exact all_measures_keysNodup m

theorem dictFind?_dependencies (m : DataModel) (k : String) :
    dictFind? k (dependencies m) =
      (dictFind? k (all_measures m)).map (fun p => (p.1, measureDeps m p.1 p.2)) := by
  unfold dependencies
  generalize all_measures m = l
  induction l with
  | nil => simp [dictFind?]
  | cons p rest ih =>
    by_cases hp : p.1 = k
    · simp [dictFind?, hp]
    · simp [dictFind?, hp, ih]

theorem countP_key_of_keysNodup {α : Type} (l : List (String × α)) (k : String)
    (h : (l.map Prod.fst).Nodup) :
    l.countP (fun p => p.1 == k) = if l.any (fun p => p.1 == k) then 1 else 0 := by
  induction l with
  | nil => simp
  | cons q rest ih =>
    simp only [List.map_cons, List.nodup_cons] at h
    by_cases hq : q.1 = k
    · have hz : rest.countP (fun p => p.1 == k) = 0 := by
        rw [List.countP_eq_zero]
        intro a ha
        simp only [beq_iff_eq]
        intro hak
        exact h.1 (hq ▸ hak ▸ List.mem_map.mpr ⟨a, ha, rfl⟩)
      simp [List.countP_cons, List.any_cons, hq, hz]
    · have hqf : (q.1 == k) = false := by simp [hq]
      rw [List.countP_cons, List.any_cons]
      simp only [hqf, Bool.false_or, if_false]
      rw [ih h.2]
      simp

/-! ## Claims -/

/-- Shared: `_safe_get_expression` on a list of string fragments joins
them with newline in order. -/
theorem safe_get_expression_fragments (xs : List String) :
    safe_get_expression (some (.jarr (xs.map .jstr))) =
      String.intercalate "\n" xs := by
  simp only [safe_get_expression, List.map_map]
  congr 1
  induction xs with
  | nil => rfl
  | cons a t ih => simp [Function.comp, ih]

/-- C3: the expression normalizer is a pure total function over all raw
input shapes: an absent key or null yields `""`, a string is returned
unchanged, a list of fragments is joined with newline in order (the
fragments `["VAR x = 1", "RETURN x"]` yield `"VAR x = 1\nRETURN x"`), and
any other value yields its Python `str()` representation; being a Lean
function, it never fails and is deterministic. -/
theorem expression_normalizer_total :
    safe_get_expression none = "" ∧
    safe_get_expression (some .jnull) = "" ∧
    (∀ s : String, safe_get_expression (some (.jstr s)) = s) ∧
    (∀ xs : List String, safe_get_expression (some (.jarr (xs.map .jstr))) =
      String.intercalate "\n" xs) ∧
    (∀ vs : List JVal, safe_get_expression (some (.jarr vs)) =
      String.intercalate "\n" (vs.map pyStr)) ∧
    (∀ b : Bool, safe_get_expression (some (.jbool b)) = pyStr (.jbool b)) ∧
    (∀ n : Int, safe_get_expression (some (.jint n)) = pyStr (.jint n)) ∧
    safe_get_expression (some (.jarr [.jstr "VAR x = 1", .jstr "RETURN x"])) =
      "VAR x = 1\nRETURN x" := by
  exact ⟨rfl, rfl, fun s => rfl, safe_get_expression_fragments, fun vs => rfl,
    fun b => rfl, fun n => rfl, by decide⟩

/-- C2: for every measure of the model and every table name `T` of the
model, `T` lands in the measure's table-reference set iff the boundary-safe
case-insensitive search (word boundary or single quotes before `T`,
optional whitespace, then `[`) succeeds on the measure's expression text;
in particular the search for `Sales` rejects `SalesData[` and
`SalesRegion[Col]` and accepts `Sales[Revenue]` and `'Sales'[Revenue]`. -/
theorem table_reference_boundary_safe
    (m : DataModel) (T name : String) (info : MeasureEntry)
    (hm : (name, info) ∈ all_measures m) (hT : T ∈ all_tables m) :
    (name, measureDeps m name info) ∈ dependencies m ∧
    (T ∈ (measureDeps m name info).tables ↔ tableRefSearch T info.expression) ∧
    tableRefSearch "Sales" "SalesData[" = false ∧
    tableRefSearch "Sales" "SalesRegion[Col]" = false ∧
    tableRefSearch "Sales" "Sales[Revenue]" = true ∧
    tableRefSearch "Sales" quotedSalesRevenue = true := by
  refine ⟨List.mem_map.mpr ⟨(name, info), hm, rfl⟩, ?_, by decide, by decide,
    by decide, by decide⟩
  simp only [measureDeps, mem_sortStrings, mem_scanTables_fst]
  exact ⟨fun h => h.2, fun h => ⟨hT, h⟩⟩

/-- Witness for C2 at the demo model: `TotalSales` references table
`Sales`. -/
theorem table_reference_boundary_safe_witness :
    ("TotalSales", mkMeasureEntry "Sales" totalSalesMeasure) ∈ all_measures demoModel ∧
    "Sales" ∈ all_tables demoModel ∧
    ("Sales" ∈ (measureDeps demoModel "TotalSales"
        (mkMeasureEntry "Sales" totalSalesMeasure)).tables ↔
      tableRefSearch "Sales" (mkMeasureEntry "Sales" totalSalesMeasure).expression) :=
  ⟨by decide, by decide,
    (table_reference_boundary_safe demoModel "Sales" "TotalSales"
      (mkMeasureEntry "Sales" totalSalesMeasure) (by decide) (by decide)).2.1⟩

/-- C5: for measures `A` and `B` of the model with different names, `B`
lands in `A`'s measure-reference set iff the case-insensitive search for
`B`'s name in square brackets (with optional inner whitespace) succeeds on
`A`'s expression text; a measure is never added to its own set. -/
theorem measure_reference_bracketed
    (m : DataModel) (A : String) (info : MeasureEntry) (B : String)
    (hA : (A, info) ∈ all_measures m) (hB : B ∈ (all_measures m).map Prod.fst) :
    (A, measureDeps m A info) ∈ dependencies m ∧
    (B ∈ (measureDeps m A info).measures ↔
      B ≠ A ∧ measureRefSearch B info.expression) ∧
    A ∉ (measureDeps m A info).measures := by
  refine ⟨List.mem_map.mpr ⟨(A, info), hA, rfl⟩, ?_, ?_⟩
  · simp only [measureDeps, mem_sortStrings, mem_scanMeasures]
    exact ⟨fun h => ⟨h.2.1, h.2.2⟩, fun h => ⟨hB, h.1, h.2⟩⟩
  · simp only [measureDeps, mem_sortStrings, mem_scanMeasures]
    rintro ⟨-, h, -⟩
    exact h rfl

/-- Witness for C5 at the demo model: `YoYGrowth` references `TotalSales`
and not itself. -/
theorem measure_reference_bracketed_witness :
    ("TotalSales" ∈ (measureDeps demoModel "YoYGrowth"
        (mkMeasureEntry "Sales" yoyMeasure)).measures ↔
      "TotalSales" ≠ "YoYGrowth" ∧
        measureRefSearch "TotalSales" (mkMeasureEntry "Sales" yoyMeasure).expression) ∧
    "YoYGrowth" ∉ (measureDeps demoModel "YoYGrowth"
        (mkMeasureEntry "Sales" yoyMeasure)).measures :=
  ⟨(measure_reference_bracketed demoModel "YoYGrowth"
      (mkMeasureEntry "Sales" yoyMeasure) "TotalSales" (by decide) (by decide)).2.1,
   (measure_reference_bracketed demoModel "YoYGrowth"
      (mkMeasureEntry "Sales" yoyMeasure) "TotalSales" (by decide) (by decide)).2.2⟩

/-- C4: for every measure `A` with record `rec` in the completed forward
map, `B` lies in `rec`'s measure-reference set iff `A` lies in `B`'s
used-by list of the reverse index, which is computed in one pass
(`reverse_deps`) over the completed forward map. -/
theorem dependency_graph_symmetry
    (m : DataModel) (A B : String) (rec : DepRecord)
    (h : dictLookup (dependencies m) A = some rec) :
    B ∈ rec.measures ↔ A ∈ dictGetD (reverse_deps (dependencies m)) B [] := by
  have hfind : ∃ p : String × DepRecord,
      dictFind? A (dependencies m) = some p ∧ p.2 = rec := by
    simp only [dictLookup] at h
    cases hf : dictFind? A (dependencies m) with
    | none => rw [hf] at h; simp at h
    | some p =>
      rw [hf] at h
      exact ⟨p, rfl, Option.some.inj h⟩
  obtain ⟨p, hp, hrec⟩ := hfind
  obtain ⟨hmem, hkey⟩ := dictFind?_eq_some hp
  have hpair : (A, rec) ∈ dependencies m := by
    have hpe : p = (A, rec) := by
      obtain ⟨p1, p2⟩ := p
      simp only at hkey hrec
      rw [hkey, hrec]
    exact hpe ▸ hmem
  rw [mem_reverse_deps]
  constructor
  · intro hBm
    exact ⟨rec, hpair, hBm⟩
  · rintro ⟨rec', hmem', hB⟩
    have hfind' := dictFind?_of_mem_nodup hmem' (dependencies_keysNodup m)
    rw [hp] at hfind'
    have : p.2 = rec' := by
      have := congrArg (Option.map Prod.snd) hfind'
      simpa using this
    rw [hrec] at this
    exact this ▸ hB

/-- Witness for C4 at the demo model: `TotalSales` is in `YoYGrowth`'s
forward set and `YoYGrowth` is in `TotalSales`'s used-by list. -/
theorem dependency_graph_symmetry_witness :
    ("TotalSales" ∈ (measureDeps demoModel "YoYGrowth"
        (mkMeasureEntry "Sales" yoyMeasure)).measures ↔
      "YoYGrowth" ∈ dictGetD (reverse_deps (dependencies demoModel)) "TotalSales" []) :=
  dependency_graph_symmetry demoModel "YoYGrowth" "TotalSales"
    (measureDeps demoModel "YoYGrowth" (mkMeasureEntry "Sales" yoyMeasure))
    (by decide)

/-- C10: when several measures share a name, the analyzer's forward map
holds exactly one entry for that name, and its record is computed from the
measure encountered last in table-then-measure order (the dict assignment
overwrites earlier entries), so only the last measure's normalized
expression is scanned; concretely, for `c10Model` only the `T2` copy of
`M` is analyzed. -/
theorem duplicate_measure_names_last_wins (m : DataModel) (name : String) :
    ((dependencies m).countP (fun p => p.1 == name) =
      if (flatMeasures m).any (fun p => p.1 == name) then 1 else 0) ∧
    (dictLookup (dependencies m) name =
      (dictFind? name (flatMeasures m).reverse).map
        (fun p => measureDeps m p.1 p.2)) ∧
    dictLookup (dependencies c10Model) "M" =
      some (measureDeps c10Model "M" (mkMeasureEntry "T2" (exMeasure "M" "2 + 2"))) ∧
    (dependencies c10Model).length = 1 := by
  refine ⟨?_, ?_, by decide, by decide⟩
  · rw [dependencies, List.countP_map]
    have hc : ((fun p : String × DepRecord => p.1 == name) ∘
        (fun p : String × MeasureEntry => (p.1, measureDeps m p.1 p.2))) =
        (fun p : String × MeasureEntry => p.1 == name) := rfl
    rw [hc, countP_key_of_keysNodup _ _ (all_measures_keysNodup m)]
    have hany : (all_measures m).any (fun p => p.1 == name) =
        (flatMeasures m).any (fun p => p.1 == name) := by
      rw [← isSome_dictFind?, dictFind?_all_measures, isSome_dictFind?,
        List.any_reverse]
    rw [hany]
  · rw [dictLookup, dictFind?_dependencies, dictFind?_all_measures]
    cases dictFind? name (flatMeasures m).reverse <;> rfl

/-- C1 counterexample: normalizing `c1Raw` stores measure `M`'s expression
in the canonical Model, and in the summary's `allMeasures`, as the raw
fragment list — not as the fragments joined with newline. -/
theorem measure_expression_stays_raw_counterexample :
    (parseDataModelSchema c1Raw).tables.map
      (fun t => t.measures.map (fun meas => meas.expression)) =
      [[some fragmentsExpr]] ∧
    (parseDataModelSchema c1Raw).summary.allMeasures.map (fun e => e.expression) =
      [fragmentsExpr] ∧
    some fragmentsExpr ≠ some (JVal.jstr "VAR x = 1\nRETURN x") :=
  ⟨rfl, rfl, by decide⟩

/-- C1 (amended): the schema normalizer stores every measure expression in
its raw polymorphic shape, both in the Model and in the summary's
`allMeasures`; normalization happens at the consumer: every entry of the
dependency analyzer's measure map originates from a model measure and
carries `_safe_get_expression` of its raw expression, so a raw fragment
list is scanned as the fragments joined with newline. -/
theorem measure_expression_normalized_at_analyzer :
    (∀ mr : RawMeasure, (parseMeasure mr).expression = mr.expression) ∧
    (∀ (tname : String) (mr : RawMeasure),
      (mkAllMeasureEntry tname mr).expression = mr.expression.getD (.jstr "")) ∧
    (∀ (m : DataModel) (name : String) (info : MeasureEntry),
      (name, info) ∈ all_measures m → (name, info) ∈ flatMeasures m) ∧
    (∀ (tname : String) (meas : MeasureInfo),
      (mkMeasureEntry tname meas).expression = safe_get_expression meas.expression) ∧
    (∀ frs : List String, safe_get_expression (some (.jarr (frs.map .jstr))) =
      String.intercalate "\n" frs) := by
  refine ⟨fun mr => rfl, fun tname mr => rfl, ?_, fun tname meas => rfl,
    safe_get_expression_fragments⟩
  intro m name info h
  rw [all_measures_eq_flat] at h
  rcases mem_of_mem_foldl_dictInsert h with h | h
  · simp at h
  · exact h

/-- Witness for C1 at the demo model. -/
theorem measure_expression_normalized_at_analyzer_witness :
    ("TotalSales", mkMeasureEntry "Sales" totalSalesMeasure) ∈ flatMeasures demoModel :=
  measure_expression_normalized_at_analyzer.2.2.1 demoModel "TotalSales"
    (mkMeasureEntry "Sales" totalSalesMeasure) (by decide)

/-- C6 counterexample: for a document lacking the top-level `"model"`
object, normalization still runs (against the `.get('model', {})`
default), a data model is produced, and the `run_all` gate lets the
downstream analyzer and validator run. -/
theorem missing_model_counterexample :
    (parseSchemaFile (some c6Doc)).isSome = true ∧
    (parseDataModelSchema c6Doc).summary.totalTables = 0 ∧
    runAllProceeds (parseSchemaFile (some c6Doc)) = true :=
  ⟨rfl, rfl, rfl⟩

/-- C6 (amended): only an absent `DataModelSchema` file leaves
`results['dataModel']` unset, in which case `run_all` skips the analyzer
and validator; a present document lacking the `"model"` key is normalized
against the empty model object, yielding a model with no tables,
relationships or roles and zero counters, and the downstream analyses do
run. -/
theorem missing_model_degrades_to_empty
    (s : RawSchema) (h : s.model = none) :
    parseSchemaFile (some s) = some (parseDataModelSchema s) ∧
    (parseDataModelSchema s).tables = [] ∧
    (parseDataModelSchema s).relationships = [] ∧
    (parseDataModelSchema s).roles = [] ∧
    (parseDataModelSchema s).summary.totalTables = 0 ∧
    (parseDataModelSchema s).summary.totalMeasures = 0 ∧
    runAllProceeds (parseSchemaFile (some s)) = true ∧
    parseSchemaFile none = none ∧
    runAllProceeds none = false := by
  obtain ⟨mo⟩ := s
  obtain rfl : mo = none := h
  exact ⟨rfl, rfl, rfl, rfl, rfl, rfl, rfl, rfl, rfl⟩

/-- Witness for C6 at the concrete model-less document. -/
theorem missing_model_degrades_to_empty_witness :
    parseSchemaFile (some c6Doc) = some (parseDataModelSchema c6Doc) ∧
    (parseDataModelSchema c6Doc).tables = [] ∧
    (parseDataModelSchema c6Doc).relationships = [] ∧
    (parseDataModelSchema c6Doc).roles = [] ∧
    (parseDataModelSchema c6Doc).summary.totalTables = 0 ∧
    (parseDataModelSchema c6Doc).summary.totalMeasures = 0 ∧
    runAllProceeds (parseSchemaFile (some c6Doc)) = true ∧
    parseSchemaFile none = none ∧
    runAllProceeds none = false :=
  missing_model_degrades_to_empty c6Doc rfl

/-- C7 counterexample: a column whose raw expression is the list `[""]` is
counted as calculated (the raw value is truthy) although its normalized
expression is the empty string. -/
theorem calculated_column_counterexample :
    (parseDataModelSchema c7Raw).summary.totalCalculatedColumns = 1 ∧
    (parseDataModelSchema c7Raw).summary.calculatedColumns = ["T[C]"] ∧
    safe_get_expression (some (.jarr [.jstr ""])) = "" :=
  ⟨rfl, rfl, rfl⟩

/-- C7 (amended): a column is classified as calculated — in the summary
counter and qualified-name list of the normalizer and in the validator's
per-table calculated-column count — iff its raw expression value is truthy
(Python truth test); for raw expressions that are absent, null, or a
string this coincides with the normalized expression being non-empty. -/
theorem calculated_column_truthiness :
    (∀ raw : RawSchema, (parseDataModelSchema raw).summary.totalCalculatedColumns =
      ((raw.model.getD emptyRawModel).tables.map
        (fun t => t.columns.countP (fun c => otruthy c.expression))).sum) ∧
    (∀ t : TableInfo, (calcCols t).length =
      t.columns.countP (fun c => otruthy c.expression)) ∧
    (∀ e : Option JVal, isTextualShape e = true →
      (otruthy e = true ↔ safe_get_expression e ≠ "")) := by
  refine ⟨?_, ?_, ?_⟩
  · intro raw
    show ((raw.model.getD emptyRawModel).tables.flatMap tableCalcColumnNames).length = _
    rw [List.length_flatMap]
    apply congrArg List.sum
    apply List.map_congr_left
    intro t _
    simp only [Function.comp_apply, tableCalcColumnNames, List.length_map]
    exact (List.countP_eq_length_filter _ _).symm
  · intro t
    rw [calcCols]
    exact (List.countP_eq_length_filter _ _).symm
  · intro e he
    match e with
    | none => simp [otruthy, safe_get_expression]
    | some .jnull => simp [otruthy, truthy, safe_get_expression]
    | some (.jstr s) =>
      simp only [otruthy, truthy, safe_get_expression, Bool.not_eq_true',
        ne_eq, ← String.isEmpty_iff s]
      constructor
      · intro h1 h2
        rw [h1] at h2
        cases h2
      · intro h1
        cases hh : s.isEmpty
        · rfl
        · exact absurd hh h1
    | some (.jbool b) => simp [isTextualShape] at he
    | some (.jint n) => simp [isTextualShape] at he
    | some (.jarr xs) => simp [isTextualShape] at he

/-- Witness for C7: a string raw expression is counted iff non-empty. -/
theorem calculated_column_truthiness_witness :
    isTextualShape (some (.jstr "A + 1")) = true ∧
    (otruthy (some (.jstr "A + 1")) = true ↔
      safe_get_expression (some (.jstr "A + 1")) ≠ "") :=
  ⟨rfl, calculated_column_truthiness.2.2 (some (.jstr "A + 1")) rfl⟩

/-- Sum of per-element 0/1 terms equals a count. -/
theorem sum_map_eq_countP {α : Type} (l : List α) (f : α → Nat) (p : α → Bool)
    (h : ∀ a ∈ l, f a = if p a then 1 else 0) :
    (l.map f).sum = l.countP p := by
  induction l with
  | nil => simp
  | cons a t ih =>
    simp only [List.map_cons, List.sum_cons, List.countP_cons,
      h a (List.mem_cons_self a t)]
    rw [ih (fun b hb => h b (List.mem_cons_of_mem a hb))]
    by_cases hp : p a = true
    · simp [hp, Nat.add_comm]
    · simp [hp]

/-- C8 counterexample: one table with two calculated partitions makes
`totalCalculatedTables` equal 2 (its name is appended once per calculated
partition), although only one table has a calculated partition. -/
theorem calculated_tables_counterexample :
    (parseDataModelSchema c8Raw).summary.totalCalculatedTables = 2 ∧
    (parseDataModelSchema c8Raw).summary.calculatedTables = ["T", "T"] ∧
    (c8Raw.model.getD emptyRawModel).tables.countP
      (fun t => t.partitions.any partitionCalculated) = 1 ∧
    (2 : Nat) ≠ 1 :=
  ⟨rfl, rfl, rfl, by decide⟩

/-- C8 (amended): `totalCalculatedTables` equals the number of
(table, partition) pairs whose partition source type is `"calculated"` —
a table is counted once per calculated partition; this equals the number
of tables with at least one calculated partition exactly when no table
has more than one. -/
theorem calculated_tables_counted_per_partition :
    (∀ raw : RawSchema, (parseDataModelSchema raw).summary.totalCalculatedTables =
      ((raw.model.getD emptyRawModel).tables.map
        (fun t => t.partitions.countP partitionCalculated)).sum) ∧
    (∀ raw : RawSchema,
      (∀ t ∈ (raw.model.getD emptyRawModel).tables,
        t.partitions.countP partitionCalculated ≤ 1) →
      (parseDataModelSchema raw).summary.totalCalculatedTables =
        (raw.model.getD emptyRawModel).tables.countP
          (fun t => t.partitions.any partitionCalculated)) := by
  have hfirst : ∀ raw : RawSchema,
      (parseDataModelSchema raw).summary.totalCalculatedTables =
      ((raw.model.getD emptyRawModel).tables.map
        (fun t => t.partitions.countP partitionCalculated)).sum := by
    intro raw
    show ((raw.model.getD emptyRawModel).tables.flatMap tableCalcTableNames).length = _
    rw [List.length_flatMap]
    apply congrArg List.sum
    apply List.map_congr_left
    intro t _
    simp only [Function.comp_apply, tableCalcTableNames, List.length_map]
    exact (List.countP_eq_length_filter _ _).symm
  refine ⟨hfirst, ?_⟩
  intro raw h
  rw [hfirst raw]
  apply sum_map_eq_countP
  intro t ht
  have hle := h t ht
  by_cases hany : t.partitions.any partitionCalculated = true
  · rw [if_pos hany]
    have hpos : 0 < t.partitions.countP partitionCalculated := by
      rw [List.countP_pos_iff]
      exact List.any_eq_true.mp hany
    omega
  · rw [if_neg hany]
    rw [List.countP_eq_zero]
    intro a ha hpa
    exact hany (List.any_eq_true.mpr ⟨a, ha, hpa⟩)

/-- Witness for C8 at a document where every table has at most one
calculated partition. -/
theorem calculated_tables_counted_per_partition_witness :
    (parseDataModelSchema c8SingleRaw).summary.totalCalculatedTables =
      (c8SingleRaw.model.getD emptyRawModel).tables.countP
        (fun t => t.partitions.any partitionCalculated) :=
  calculated_tables_counted_per_partition.2 c8SingleRaw (by decide)

theorem countP_flatMap {α β : Type} (p : β → Bool) (f : α → List β) (l : List α) :
    (l.flatMap f).countP p = (l.map (fun x => (f x).countP p)).sum := by
  induction l with
  | nil => simp
  | cons a t ih => simp [List.flatMap_cons, List.countP_append, ih]

/-- The overload warnings one table contributes: exactly one when the
table carries the given name and more than five calculated columns. -/
theorem countP_overload_tableWarnings (rels : List String) (t : TableInfo) (T : String) :
    (tableWarnings rels t).countP (isCalcOverloadFor T) =
      if t.name = T ∧ 5 < (calcCols t).length then 1 else 0 := by
  unfold tableWarnings
  rw [List.countP_append, List.countP_append, List.countP_append]
  have h1 : (if !rels.contains t.name && !t.isHidden then
      [Finding.orphanedTable t.name] else []).countP (isCalcOverloadFor T) = 0 := by
    split <;> simp [List.countP_cons, isCalcOverloadFor]
  have h2 : ((t.measures.filter
      (fun meas => optStrFalsy meas.formatString && !meas.isHidden)).map
      (fun meas => Finding.missingFormat t.name meas.name)).countP
      (isCalcOverloadFor T) = 0 := by
    rw [List.countP_map, List.countP_eq_zero]
    intro a _
    simp [Function.comp, isCalcOverloadFor]
  have h3 : (if t.isHidden && !(t.columns.filter (fun c => !c.isHidden)).isEmpty then
      [Finding.hiddenVisible t.name (t.columns.filter (fun c => !c.isHidden)).length]
    else []).countP (isCalcOverloadFor T) = 0 := by
    split <;> simp [List.countP_cons, isCalcOverloadFor]
  rw [h1, h2, h3]
  by_cases hname : t.name = T
  · subst hname
    by_cases hlen : 5 < (calcCols t).length
    · rw [if_pos hlen]
      simp [List.countP_cons, isCalcOverloadFor, hlen]
    · rw [if_neg hlen]
      simp [hlen]
  · by_cases hlen : 5 < (calcCols t).length
    · rw [if_pos hlen]
      have hov : isCalcOverloadFor T (Finding.calcOverload t.name (calcCols t).length) = false := by
        simp [isCalcOverloadFor, hname]
      simp [List.countP_cons, hov, hname]
    · rw [if_neg hlen]
      simp [hname]

theorem relWarnings_no_overload (m : DataModel) (T : String) :
    (relWarnings m).countP (isCalcOverloadFor T) = 0 := by
  unfold relWarnings
  rw [List.countP_append, List.countP_append]
  have h1 : ∀ (b : Bool) (f : Finding), isCalcOverloadFor T f = false →
      (if b then [f] else []).countP (isCalcOverloadFor T) = 0 := by
    intro b f hf
    cases b <;> simp [List.countP_cons, hf]
  rw [h1 (!(inactiveRelList m).isEmpty) (Finding.inactiveRels (inactiveRelList m).length) rfl,
    h1 (!(bidirRelList m).isEmpty) (Finding.bidirRels (bidirRelList m).length) rfl,
    h1 (!(m2mRelList m).isEmpty) (Finding.manyToManyRels (m2mRelList m).length) rfl]

/-- Summing the per-table overload indicator under unique table names. -/
theorem sum_overload_terms (l : List TableInfo) (t : TableInfo) (T : String)
    (hnodup : (l.map TableInfo.name).Nodup) (ht : t ∈ l) (hT : t.name = T) :
    (l.map (fun u => if u.name = T ∧ 5 < (calcCols u).length then 1 else 0)).sum =
      if 5 < (calcCols t).length then 1 else 0 := by
  induction l with
  | nil => cases ht
  | cons u rest ih =>
    simp only [List.map_cons, List.sum_cons]
    simp only [List.map_cons, List.nodup_cons] at hnodup
    rcases List.mem_cons.mp ht with rfl | hmem
    · have hz : (rest.map
          (fun u => if u.name = T ∧ 5 < (calcCols u).length then 1 else 0)).sum = 0 := by
        apply List.sum_eq_zero
        intro x hx
        obtain ⟨v, hv, rfl⟩ := List.mem_map.mp hx
        have hvT : ¬ v.name = T := by
          intro hvT
          exact hnodup.1 (hT ▸ hvT ▸ List.mem_map.mpr ⟨v, hv, rfl⟩)
        simp [hvT]
      rw [hz]
      by_cases hlen : 5 < (calcCols t).length
      · simp [hT, hlen]
      · simp [hT, hlen]
    · have hu : ¬ u.name = T := by
        intro huT
        exact hnodup.1 ((huT.trans hT.symm) ▸ List.mem_map.mpr ⟨t, hmem, rfl⟩)
      have : ¬ (u.name = T ∧ 5 < (calcCols u).length) := fun h => hu h.1
      rw [if_neg this, Nat.zero_add]
      exact ih hnodup.2 hmem

/-- C9: under the Model invariant of unique table names, the validator
emits a calculated-column overload warning for a table iff it has strictly
more than 5 calculated columns, and then exactly one; concretely, a table
with exactly 5 calculated columns yields none and a table with 6 yields
exactly one. -/
theorem calc_overload_threshold
    (m : DataModel) (t : TableInfo)
    (hnodup : (m.tables.map TableInfo.name).Nodup) (ht : t ∈ m.tables) :
    ((validate_model m).2.countP (isCalcOverloadFor t.name) =
      if 5 < (calcCols t).length then 1 else 0) ∧
    (validate_model c9FiveModel).2.countP (isCalcOverloadFor "F") = 0 ∧
    (validate_model c9SixModel).2.countP (isCalcOverloadFor "S") = 1 := by
  refine ⟨?_, by decide, by decide⟩
  show ((m.tables.flatMap (tableWarnings (tables_with_rels m)) ++ relWarnings m).countP _) = _
  rw [List.countP_append, relWarnings_no_overload, Nat.add_zero, countP_flatMap]
  have hmap : (m.tables.map
      (fun x => (tableWarnings (tables_with_rels m) x).countP (isCalcOverloadFor t.name))) =
      m.tables.map (fun u => if u.name = t.name ∧ 5 < (calcCols u).length then 1 else 0) := by
    apply List.map_congr_left
    intro u _
    exact countP_overload_tableWarnings _ u t.name
  rw [hmap]
  exact sum_overload_terms m.tables t t.name hnodup ht rfl

/-- Witness for C9 at the six-calculated-column table. -/
theorem calc_overload_threshold_witness :
    (validate_model c9SixModel).2.countP (isCalcOverloadFor "S") =
      if 5 < (calcCols (exTable "S" [calcColumn "c1", calcColumn "c2", calcColumn "c3",
        calcColumn "c4", calcColumn "c5", calcColumn "c6"] [])).length then 1 else 0 :=
  (calc_overload_threshold c9SixModel
    (exTable "S" [calcColumn "c1", calcColumn "c2", calcColumn "c3",
      calcColumn "c4", calcColumn "c5", calcColumn "c6"] [])
    (by decide) (by decide)).1

end PBI
